import Mathlib

/-!
Verification of the schedule-resolution engine of Project-Synapse.

This file shallowly embeds the Python sources
  `src/config/course_schedule_config.py`
  `src/utils/course_schedule_parser.py`
  `src/intergrations/notion/processor.py` (lines 826-894)
  `src/utils/course_import_processor.py`
into Lean 4 and proves properties of the embedding.

Modelling conventions:
* `datetime.datetime` is modelled as a proleptic-Gregorian ordinal
  (`datetime.toordinal`, day 1 = 0001-01-01, a Monday) plus a
  time-of-day in seconds (`PyDateTime`).  Sub-second resolution is not
  modelled; no program path in scope constructs sub-second times.
* `datetime.time` is modelled as hour/minute (`Time`); the sources only
  build times with zero seconds.
* Python's regex `([一二三四五六日a-zA-Z]+)(\d+)` with `re.findall` is
  modelled by the scanner `findAll` below; `[a-zA-Z]` and `\d` are the
  ASCII classes (the sources only feed ASCII letters/digits and the
  seven ideographic weekday characters).
* Python `list.sort(key=...)` is a stable sort by key; it is modelled by
  `List.insertionSort` with the (total, transitive) key order, which
  computes the same list.
* Display-only string fields (`session_info`, `schedule_display`, the
  synthesized block names) are omitted: they are `strftime`-formatted
  echoes of fields that are modelled.
-/

/-- `datetime.time`, restricted to hours/minutes as the sources build it. -/
structure Time where
  hour : Nat
  minute : Nat
deriving DecidableEq, Repr

/-- `datetime.datetime`: proleptic Gregorian ordinal of the calendar day
plus the time of day in seconds. -/
structure PyDateTime where
  ordinal : Nat
  tod : Nat
deriving DecidableEq, Repr

/-- Python `datetime` order (lexicographic on calendar day, then time of day): `a <= b`. -/
def dtLe (a b : PyDateTime) : Prop :=
  a.ordinal < b.ordinal ∨ (a.ordinal = b.ordinal ∧ a.tod ≤ b.tod)

/-- Python `datetime` strict order `a < b`. -/
def dtLt (a b : PyDateTime) : Prop :=
  a.ordinal < b.ordinal ∨ (a.ordinal = b.ordinal ∧ a.tod < b.tod)

instance : DecidableRel dtLe := fun a b => by unfold dtLe; infer_instance

instance : DecidableRel dtLt := fun a b => by unfold dtLt; infer_instance

/-- `current_date + timedelta(days=1)` and friends: add whole days,
keeping the time of day. -/
def addDays (d : PyDateTime) (k : Nat) : PyDateTime :=
  { d with ordinal := d.ordinal + k }

/-- Adding a (possibly negative) whole number of days.  Every call site in
scope adds a non-negative count, so truncation at day 0 is unreachable. -/
def addDaysI (d : PyDateTime) (k : Int) : PyDateTime :=
  { d with ordinal := ((d.ordinal : Int) + k).toNat }

/-- `datetime.date.weekday()`: Monday = 0.  Ordinal 1 (0001-01-01) is a Monday. -/
def pyWeekday (d : PyDateTime) : Nat :=
  (d.ordinal + 6) % 7

/-- Gregorian leap-year test (as in Python's `datetime` module). -/
def isLeap (y : Nat) : Bool :=
  y % 4 == 0 && (y % 100 != 0 || y % 400 == 0)

/-- Days in the months before month `m` (1-based) of year `y`. -/
def daysBeforeMonth (y m : Nat) : Nat :=
  let lens := [31, if isLeap y then 29 else 28, 31, 30, 31, 30, 31, 31, 30, 31, 30, 31]
  (lens.take (m - 1)).sum

/-- `datetime.date(y, m, d).toordinal()`. -/
def toOrdinal (y m d : Nat) : Nat :=
  (y - 1) * 365 + (y - 1) / 4 - (y - 1) / 100 + (y - 1) / 400 + daysBeforeMonth y m + d

/-- `datetime.datetime(y, m, d)` (midnight). -/
def mkDateTime (y m d : Nat) : PyDateTime :=
  { ordinal := toOrdinal y m d, tod := 0 }

/-- `(a - b).days` for two datetimes: the `timedelta` day count, which
floors the difference in seconds over a day's seconds. -/
def pyTimedeltaDays (a b : PyDateTime) : Int :=
  (((a.ordinal : Int) * 86400 + a.tod) - ((b.ordinal : Int) * 86400 + b.tod)).fdiv 86400

/-- First-match association-list lookup: Python `dict.get` over the
literal tables below (whose keys are distinct). -/
def assocLookup {α β : Type} [DecidableEq α] (k : α) : List (α × β) → Option β
  | [] => none
  | (a, b) :: rest => if k = a then some b else assocLookup k rest

theorem assocLookup_mem {α β : Type} [DecidableEq α] (k : α) (v : β) :
    ∀ l : List (α × β), assocLookup k l = some v → (k, v) ∈ l := by
  intro l
  induction l with
  | nil => intro h; simp [assocLookup] at h
  | cons p rest ih =>
    intro h
    obtain ⟨a, b⟩ := p
    by_cases hk : k = a
    · subst hk
      simp [assocLookup] at h
      simp [h]
    · simp [assocLookup, hk] at h
      exact List.mem_cons_of_mem _ (ih h)

/-! ## `src/config/course_schedule_config.py` -/

/-- `CLASS_PERIODS`: period number → (start time, end time). -/
def CLASS_PERIODS : List (Nat × (Time × Time)) :=
  [ (1, (⟨6, 10⟩, ⟨7, 0⟩)),
    (2, (⟨7, 10⟩, ⟨8, 0⟩)),
    (3, (⟨8, 10⟩, ⟨9, 0⟩)),
    (4, (⟨9, 10⟩, ⟨10, 0⟩)),
    (5, (⟨10, 20⟩, ⟨11, 10⟩)),
    (6, (⟨11, 20⟩, ⟨12, 10⟩)),
    (7, (⟨12, 10⟩, ⟨13, 0⟩)),
    (8, (⟨13, 10⟩, ⟨14, 0⟩)),
    (9, (⟨14, 10⟩, ⟨15, 0⟩)),
    (10, (⟨15, 10⟩, ⟨16, 0⟩)),
    (11, (⟨16, 20⟩, ⟨17, 10⟩)),
    (12, (⟨17, 20⟩, ⟨18, 10⟩)),
    (13, (⟨18, 30⟩, ⟨19, 20⟩)),
    (14, (⟨19, 30⟩, ⟨20, 20⟩)) ]

/-- `WEEKDAY_MAP`: weekday token → 0-based weekday index. -/
def WEEKDAY_MAP : List (String × Nat) :=
  [ ("一", 0), ("二", 1), ("三", 2), ("四", 3), ("五", 4), ("六", 5), ("日", 6),
    ("Mon", 0), ("Monday", 0),
    ("Tue", 1), ("Tuesday", 1),
    ("Wed", 2), ("Wednesday", 2),
    ("Thu", 3), ("Thursday", 3),
    ("Fri", 4), ("Friday", 4),
    ("Sat", 5), ("Saturday", 5),
    ("Sun", 6), ("Sunday", 6) ]

/-- `get_period_time(period)`. -/
def get_period_time (period : Nat) : Option (Time × Time) :=
  assocLookup period CLASS_PERIODS

/-- `Semester` dataclass. -/
structure Semester where
  year : Nat
  semester : Nat
  start_date : PyDateTime
  end_date : PyDateTime
deriving DecidableEq, Repr

/-- `SEMESTER_DATABASE` (the seeded defaults). -/
def SEMESTER_DATABASE : List ((Nat × Nat) × Semester) :=
  [ ((113, 1), ⟨113, 1, mkDateTime 2024 9 1, mkDateTime 2025 1 31⟩),
    ((113, 2), ⟨113, 2, mkDateTime 2025 2 1, mkDateTime 2025 6 30⟩),
    ((114, 1), ⟨114, 1, mkDateTime 2025 9 1, mkDateTime 2026 1 31⟩),
    ((114, 2), ⟨114, 2, mkDateTime 2026 2 23, mkDateTime 2026 6 30⟩),
    ((115, 1), ⟨115, 1, mkDateTime 2026 9 1, mkDateTime 2027 1 31⟩),
    ((115, 2), ⟨115, 2, mkDateTime 2027 2 1, mkDateTime 2027 6 30⟩) ]

/-- `get_semester_info(year, semester)`. -/
def get_semester_info (year semester : Nat) : Option Semester :=
  assocLookup (year, semester) SEMESTER_DATABASE

/-! ## `src/utils/course_schedule_parser.py` -/

/-- `ClassSession` dataclass (the `date` field is `None` throughout the
parser and is omitted). -/
structure ClassSession where
  weekday : Nat
  start_period : Nat
  end_period : Nat
  start_time : Time
  end_time : Time
deriving DecidableEq, Repr

/-- Character class `[一二三四五六日a-zA-Z]` of the extraction regex. -/
def isWdChar (c : Char) : Bool :=
  c == '一' || c == '二' || c == '三' || c == '四' || c == '五' || c == '六' ||
  c == '日' || c.isAlpha

/-- `re.findall(r'([一二三四五六日a-zA-Z]+)(\d+)', s)`: one (weekday
token, digit run) pair per non-overlapping leftmost match.  `wd`
accumulates the current run of weekday-class characters; `cur`, when
set, is a weekday run together with the digit run read so far. -/
def findAllAux : List Char → List Char → Option (List Char × List Char) →
    List (List Char × List Char)
  | [], _, cur => match cur with | some p => [p] | none => []
  | c :: cs, wd, cur =>
    match cur with
    | some (w, ds) =>
      if c.isDigit then findAllAux cs [] (some (w, ds ++ [c]))
      else if isWdChar c then (w, ds) :: findAllAux cs [c] none
      else (w, ds) :: findAllAux cs [] none
    | none =>
      if isWdChar c then findAllAux cs (wd ++ [c]) none
      else if c.isDigit then
        if wd.isEmpty then findAllAux cs [] none
        else findAllAux cs [] (some (wd, [c]))
      else findAllAux cs [] none

/-- All matches of the extraction regex in a string's characters. -/
def findAll (cs : List Char) : List (List Char × List Char) :=
  findAllAux cs [] none

/-- `int(period_str)` on a run of ASCII digits. -/
def digitsToNat (ds : List Char) : Nat :=
  ds.foldl (fun n c => n * 10 + (c.toNat - '0'.toNat)) 0

/-- `min(periods)` for a nonempty Python list. -/
def listMin : List Nat → Nat
  | [] => 0
  | x :: xs => xs.foldl Nat.min x

/-- `max(periods)` for a nonempty Python list. -/
def listMax : List Nat → Nat
  | [] => 0
  | x :: xs => xs.foldl Nat.max x

/-- `CourseScheduleParser._parse_single_schedule`. -/
def parse_single_schedule (cs : List Char) : List ClassSession :=
  match findAll cs with
  | [] => []
  | (w0, d0) :: rest =>
    match assocLookup (String.mk w0) WEEKDAY_MAP with
    | none => []
    | some weekday =>
      let periods := ((w0, d0) :: rest).map (fun m => digitsToNat m.2)
      let min_period := listMin periods
      let max_period := listMax periods
      match get_period_time min_period, get_period_time max_period with
      | some st, some et =>
        [⟨weekday, min_period, max_period, st.1, et.2⟩]
      | _, _ => []

/-- Python `s.split(sep)` for a one-character separator (empty pieces
preserved, result always nonempty). -/
def splitOn (sep : Char) : List Char → List (List Char)
  | [] => [[]]
  | c :: cs =>
    if c = sep then [] :: splitOn sep cs
    else
      match splitOn sep cs with
      | [] => [[c]]
      | p :: ps => (c :: p) :: ps

/-- Python `schedule_str.split(',')`. -/
def splitComma (cs : List Char) : List (List Char) :=
  splitOn ',' cs

/-- Python `str.strip()` on characters. -/
def stripWs (cs : List Char) : List Char :=
  ((cs.dropWhile Char.isWhitespace).reverse.dropWhile Char.isWhitespace).reverse

/-- Sort key order of `sessions.sort(key=lambda x: (x.weekday, x.start_period))`. -/
def sessLe (a b : ClassSession) : Prop :=
  a.weekday < b.weekday ∨ (a.weekday = b.weekday ∧ a.start_period ≤ b.start_period)

instance : DecidableRel sessLe := fun a b => by unfold sessLe; infer_instance

instance : IsTotal ClassSession sessLe := ⟨by intro a b; unfold sessLe; omega⟩

instance : IsTrans ClassSession sessLe := ⟨by intro a b c; unfold sessLe; omega⟩

/-- `CourseScheduleParser.parse_schedule` (stable sort by
`(weekday, start_period)` modelled by insertion sort on that key order). -/
def parse_schedule (s : String) : List ClassSession :=
  let parts := (splitComma s.data).map stripWs
  let sessions := (parts.map parse_single_schedule).flatten
  List.insertionSort sessLe sessions

example : parse_schedule "三9/三10/三11" =
    [⟨2, 9, 11, ⟨14, 10⟩, ⟨17, 10⟩⟩] := by decide

example : parse_schedule "二2,五4" =
    [⟨1, 2, 2, ⟨7, 10⟩, ⟨8, 0⟩⟩, ⟨4, 4, 4, ⟨9, 10⟩, ⟨10, 0⟩⟩] := by decide

example : parse_schedule "Wed9/Wed10" =
    [⟨2, 9, 10, ⟨14, 10⟩, ⟨16, 0⟩⟩] := by decide

example : parse_schedule "garbage" = [] := by decide

example : parse_schedule "" = [] := by decide

example : pyWeekday (mkDateTime 2025 9 3) = 2 := by decide

/-- One emitted element of `CourseScheduleParser.get_class_dates`
(the display string `session_info` is omitted). -/
structure Occurrence where
  date : PyDateTime
  weekday : Nat
  start_time : Time
  end_time : Time
  start_period : Nat
  end_period : Nat
deriving DecidableEq, Repr

/-- Body of the `for session in sessions` loop for one calendar day. -/
def dayOccurrences (sessions : List ClassSession) (cur : PyDateTime)
    (exclude_dates : List PyDateTime) : List Occurrence :=
  sessions.filterMap fun s =>
    if pyWeekday cur = s.weekday then
      if cur ∈ exclude_dates then none
      else some ⟨cur, s.weekday, s.start_time, s.end_time, s.start_period, s.end_period⟩
    else none

/-- The `while current_date <= semester.end_date` loop.  `fuel` bounds
the number of iterations; `get_class_dates` passes enough fuel for the
guard to be the one that stops the loop. -/
def classDatesLoop (fuel : Nat) (cur endDt : PyDateTime)
    (sessions : List ClassSession) (exclude_dates : List PyDateTime) : List Occurrence :=
  match fuel with
  | 0 => []
  | fuel + 1 =>
    if dtLe cur endDt then
      dayOccurrences sessions cur exclude_dates ++
        classDatesLoop fuel (addDays cur 1) endDt sessions exclude_dates
    else []

/-- `CourseScheduleParser.get_class_dates`. -/
def get_class_dates (sessions : List ClassSession) (semester_year semester_num : Nat)
    (exclude_dates : List PyDateTime) : List Occurrence :=
  match get_semester_info semester_year semester_num with
  | none => []
  | some sem =>
    classDatesLoop (sem.end_date.ordinal + 1 - sem.start_date.ordinal)
      sem.start_date sem.end_date sessions exclude_dates

/-! ## `src/intergrations/notion/processor.py`, `_generate_course_sessions` -/

/-- One element of `sessions_to_create` (the `name` string is omitted;
legacy-mode entries carry no `week` key and `None` times, hence the
`Option` fields). -/
structure TeachingBlock where
  date : PyDateTime
  start_time : Option Time
  end_time : Option Time
  week : Option Int
deriving DecidableEq, Repr

/-- Sort-key order of
`class_dates.sort(key=lambda x: (x['date'], x['start_time'] or datetime.min.time()))`:
lexicographic on (calendar day, time of day, start time).  The
occurrences in scope always carry a (truthy) start time, so the
`or datetime.min.time()` default never applies. -/
def occLe (a b : Occurrence) : Prop :=
  a.date.ordinal < b.date.ordinal ∨
    (a.date.ordinal = b.date.ordinal ∧
      (a.date.tod < b.date.tod ∨
        (a.date.tod = b.date.tod ∧
          (a.start_time.hour < b.start_time.hour ∨
            (a.start_time.hour = b.start_time.hour ∧
              a.start_time.minute ≤ b.start_time.minute)))))

instance : DecidableRel occLe := fun a b => by unfold occLe; infer_instance

instance : IsTotal Occurrence occLe := ⟨by intro a b; unfold occLe; omega⟩

instance : IsTrans Occurrence occLe := ⟨by intro a b c; unfold occLe; omega⟩

/-- `itertools.groupby(class_dates, key=lambda x: x['date'])`: split into
maximal runs of consecutive elements sharing the exact datetime.
`prev` is the previous element read and `acc` the current run, reversed. -/
def groupByDateAux : List Occurrence → Occurrence → List Occurrence →
    List (List Occurrence)
  | [], _, acc => [acc.reverse]
  | o :: os, prev, acc =>
    if o.date = prev.date then groupByDateAux os o (o :: acc)
    else acc.reverse :: groupByDateAux os o [o]

/-- Consecutive grouping by exact date. -/
def groupByDate : List Occurrence → List (List Occurrence)
  | [] => []
  | o :: os => groupByDateAux os o [o]

/-- One merged block for one day group (`group_list` nonempty):
`start_time` from the group's first element, `end_time` from its last,
week index from the anchor date.  Python `//` is floor division
(`Int.fdiv`). -/
def buildBlock (anchor : PyDateTime) : List Occurrence → Option TeachingBlock
  | [] => none
  | g0 :: rest =>
    some ⟨g0.date, some g0.start_time, some (((g0 :: rest).getLast (by simp)).end_time),
      some (((g0.date.ordinal : Int) - (anchor.ordinal : Int)).fdiv 7 + 1)⟩

/-- The smart-mode merge of `_generate_course_sessions` without the
18-week cap (used to state that capping is a plain filter). -/
def mergeBlocksNoCap (class_dates : List Occurrence) : List TeachingBlock :=
  match List.insertionSort occLe class_dates with
  | [] => []
  | first :: rest => (groupByDate (first :: rest)).filterMap (buildBlock first.date)

/-- Smart-mode merge and week indexing of `_generate_course_sessions`
(processor.py lines 826-869): sort by (date, start time), group by date,
merge each group into one block, anchor week numbering at the first
class date, and skip (`continue`) any block with week index above 18. -/
def mergeAndIndex (class_dates : List Occurrence) : List TeachingBlock :=
  match List.insertionSort occLe class_dates with
  | [] => []
  | first :: rest =>
    (groupByDate (first :: rest)).filterMap fun grp =>
      (buildBlock first.date grp).bind fun b =>
        if 18 < b.week.getD 0 then none else some b

/-- Legacy fallback of `_generate_course_sessions` (processor.py lines
880-894): 18 synthetic blocks from the global semester window.
`semester_weeks = (global_end - global_start).days / 7` is Python true
division and `int(semester_weeks / 18)` truncates toward zero, which
equals truncating `days / 126`; at these magnitudes the float rounding
of the two divisions cannot change the truncation. -/
def legacySessions (global_start global_end : PyDateTime) : List TeachingBlock :=
  (List.range' 1 18).map fun i =>
    let weeks_per_session : Int :=
      max 1 ((pyTimedeltaDays global_end global_start).tdiv 126)
    let session_date := addDaysI global_start (7 * ((i : Int) - 1) * weeks_per_session)
    ⟨if dtLt global_end session_date then global_end else session_date, none, none, none⟩

/-! ## `src/utils/course_import_processor.py` -/

/-- A tabular input row: key/value pairs (a Python dict). -/
def Row : Type := List (String × String)

/-- The parsed course record returned by `parse_course_row` (the
`schedule_display` echo string is omitted). -/
structure CourseRecord where
  year : Int
  semester : Int
  code : Option String
  name : String
  instructor : String
  schedule_str : String
  schedule_sessions : List ClassSession
  hours : Option Int
  credits : Option Int
deriving DecidableEq, Repr

/-- `row.get(k1) or row.get(k2) or ...`: first truthy value (a missing
key gives `None` and an empty string is falsy; both are observed only
through truthiness downstream). -/
def orGet (row : Row) : List String → Option String
  | [] => none
  | k :: ks =>
    match assocLookup k row with
    | some v => if v = "" then orGet row ks else some v
    | none => orGet row ks

/-- Python `int(s)` on a string: optional surrounding whitespace,
optional sign, then decimal digits (digit-group underscores are not
modelled; no caller in scope passes them). -/
def pyInt (s : String) : Option Int :=
  let t := stripWs s.data
  let core : Option (Bool × List Char) :=
    match t with
    | '+' :: r => some (false, r)
    | '-' :: r => some (true, r)
    | r => some (false, r)
  match core with
  | some (neg, ds) =>
    if ds.isEmpty then none
    else if ds.all Char.isDigit then
      some (if neg then -(digitsToNat ds : Int) else (digitsToNat ds : Int))
    else none
  | none => none

/-- Python `str.strip('/')`. -/
def stripSlash (s : String) : String :=
  String.mk (((s.data.dropWhile (· = '/')).reverse.dropWhile (· = '/')).reverse)

/-- Python `credits_str.split('/')` then `int` on the first two pieces
inside one `try`: a failure on the first piece aborts before the second
is assigned. -/
def parseHoursCredits (credits_str : String) : Option Int × Option Int :=
  let parts := (splitOn '/' credits_str.data).map String.mk
  match parts with
  | [] => (none, none)
  | p0 :: rest =>
    match pyInt p0 with
    | none => (none, none)
    | some h =>
      match rest with
      | [] => (some h, none)
      | p1 :: _ =>
        match pyInt p1 with
        | none => (some h, none)
        | some c => (some h, some c)

/-- `CourseImportProcessor.parse_course_row`. -/
def parse_course_row (row : Row) : Option CourseRecord :=
  let year_s := orGet row ["学年", "Year", "year"]
  let semester_s := orGet row ["学期", "Semester", "semester"]
  let code_s := orGet row ["课程代码", "Code", "code"]
  let name_s := orGet row ["课程名称", "Name", "name"]
  let instructor_s := orGet row ["教师", "Instructor", "instructor"]
  let schedule_s := orGet row ["上课时间", "Schedule", "schedule"]
  let credits_s := orGet row ["上课时数/学分", "Credits", "credits"]
  match year_s, semester_s, name_s, schedule_s with
  | some ys, some ss, some nm, some sch =>
    match pyInt ys, pyInt ss with
    | some y, some s =>
      let sessions := parse_schedule sch
      if sessions.isEmpty then none
      else
        let hc := match credits_s with
          | none => (none, none)
          | some cs => parseHoursCredits cs
        some
          { year := y, semester := s, code := code_s,
            name := stripSlash nm,
            instructor := (instructor_s.map stripSlash).getD "",
            schedule_str := sch, schedule_sessions := sessions,
            hours := hc.1, credits := hc.2 }
    | _, _ => none
  | _, _, _, _ => none

attribute [ext] Time PyDateTime

/-! ## Helper lemmas -/

theorem splitOn_of_not_mem (sep : Char) :
    ∀ cs : List Char, sep ∉ cs → splitOn sep cs = [cs] := by
  intro cs
  induction cs with
  | nil => intro _; rfl
  | cons c cs ih =>
    intro h
    have hc : ¬ c = sep := by
      intro hc; exact h (hc ▸ List.mem_cons_self c cs)
    have hcs : sep ∉ cs := fun hm => h (List.mem_cons_of_mem _ hm)
    simp [splitOn, hc, ih hcs]

theorem get_period_time_some_of_range (p : Nat) (h1 : 1 ≤ p) (h2 : p ≤ 14) :
    ∃ pr, get_period_time p = some pr := by
  interval_cases p <;> exact ⟨_, rfl⟩

theorem get_period_time_none_of_out (p : Nat) (h : p < 1 ∨ 14 < p) :
    get_period_time p = none := by
  rcases hq : get_period_time p with _ | pr
  · rfl
  · exfalso
    have hm := assocLookup_mem _ _ _ hq
    fin_cases hm <;> omega

theorem parse_single_schedule_length (g : List Char) :
    (parse_single_schedule g).length ≤ 1 := by
  unfold parse_single_schedule
  split
  · simp
  · split
    · simp
    · dsimp only
      split <;> simp

theorem flatten_length_le (f : List Char → List ClassSession)
    (hf : ∀ g, (f g).length ≤ 1) :
    ∀ l : List (List Char), ((l.map f).flatten).length ≤ l.length := by
  intro l
  induction l with
  | nil => simp
  | cons g l ih =>
    simp only [List.map_cons, List.flatten_cons, List.length_append, List.length_cons]
    have := hf g
    omega

/-! ## Claim theorems -/

/-- C5led: for every weekday token in the weekday table and every period
number that the period table resolves (exactly 1..14), parsing the
concatenation of the token and the decimal period yields exactly one
session with that weekday index, equal start and end periods, and the
period table's start and end times. -/
theorem parse_schedule_single_token (w : String) (d : Nat)
    (hw : assocLookup w WEEKDAY_MAP = some d) (p : Nat) (st et : Time)
    (hp : get_period_time p = some (st, et)) :
    parse_schedule (w ++ Nat.repr p) = [⟨d, p, p, st, et⟩] := by
  have hw' : (w, d) ∈ WEEKDAY_MAP := assocLookup_mem _ _ _ hw
  have hp' : (p, (st, et)) ∈ CLASS_PERIODS := assocLookup_mem _ _ _ hp
  fin_cases hw' <;> fin_cases hp' <;> decide

/-- Closed instance of `parse_schedule_single_token` at token 三, period 9. -/
theorem parse_schedule_single_token_witness :
    assocLookup "三" WEEKDAY_MAP = some 2 ∧
    get_period_time 9 = some (⟨14, 10⟩, ⟨15, 0⟩) ∧
    parse_schedule ("三" ++ Nat.repr 9) = [⟨2, 9, 9, ⟨14, 10⟩, ⟨15, 0⟩⟩] :=
  ⟨by decide, by decide,
    parse_schedule_single_token "三" 2 (by decide) 9 ⟨14, 10⟩ ⟨15, 0⟩ (by decide)⟩

/-- The period numbers of a list of regex matches (`int(period_str)`,
token by token, weekday portions ignored). -/
def matchPeriods (ms : List (List Char × List Char)) : List Nat :=
  ms.map fun m => digitsToNat m.2

/-- C1: a comma-free group whose matches start with a resolvable weekday
token and whose minimum and maximum period numbers lie in 1..14 parses
to exactly one session: the first token's weekday, `[min, max]` periods,
and the period table's times at the two boundaries.  Later tokens
contribute only their period numbers. -/
theorem parse_schedule_group (g : List Char) (hc : ',' ∉ g)
    (w0 d0 : List Char) (rest : List (List Char × List Char))
    (hf : findAll (stripWs g) = (w0, d0) :: rest)
    (wd : Nat) (hw : assocLookup (String.mk w0) WEEKDAY_MAP = some wd)
    (hmin1 : 1 ≤ listMin (matchPeriods ((w0, d0) :: rest)))
    (hmin2 : listMin (matchPeriods ((w0, d0) :: rest)) ≤ 14)
    (hmax1 : 1 ≤ listMax (matchPeriods ((w0, d0) :: rest)))
    (hmax2 : listMax (matchPeriods ((w0, d0) :: rest)) ≤ 14) :
    ∃ st et : Time × Time,
      get_period_time (listMin (matchPeriods ((w0, d0) :: rest))) = some st ∧
      get_period_time (listMax (matchPeriods ((w0, d0) :: rest))) = some et ∧
      parse_schedule (String.mk g) =
        [⟨wd, listMin (matchPeriods ((w0, d0) :: rest)),
          listMax (matchPeriods ((w0, d0) :: rest)), st.1, et.2⟩] := by
  obtain ⟨st, hst⟩ := get_period_time_some_of_range _ hmin1 hmin2
  obtain ⟨et, het⟩ := get_period_time_some_of_range _ hmax1 hmax2
  obtain ⟨st1, st2⟩ := st
  obtain ⟨et1, et2⟩ := et
  refine ⟨⟨st1, st2⟩, ⟨et1, et2⟩, hst, het, ?_⟩
  have hsingle : parse_single_schedule (stripWs g) =
      [⟨wd, listMin (matchPeriods ((w0, d0) :: rest)),
        listMax (matchPeriods ((w0, d0) :: rest)), st1, et2⟩] := by
    unfold parse_single_schedule
    rw [hf]
    simp only [hw]
    simp only [matchPeriods] at hst het
    rw [hst, het]
    simp [matchPeriods]
  unfold parse_schedule
  dsimp only
  rw [splitComma, splitOn_of_not_mem ',' g hc]
  simp [hsingle, List.insertionSort, List.orderedInsert]

/-- Closed instance of `parse_schedule_group` on "三9/三10/三11"
(Scenario A: one session, weekday 2, periods 9 to 11). -/
theorem parse_schedule_group_witness :
    parse_schedule (String.mk ['三', '9', '/', '三', '1', '0', '/', '三', '1', '1']) =
      [⟨2, 9, 11, ⟨14, 10⟩, ⟨17, 10⟩⟩] := by
  obtain ⟨st, et, hst, het, hp⟩ :=
    parse_schedule_group ['三', '9', '/', '三', '1', '0', '/', '三', '1', '1']
      (by decide) ['三'] ['9'] [(['三'], ['1', '0']), (['三'], ['1', '1'])]
      (by decide) 2 (by decide) (by decide) (by decide) (by decide) (by decide)
  have hst' : st = (⟨14, 10⟩, ⟨15, 0⟩) := by
    have : get_period_time (listMin (matchPeriods
        ((['三'], ['9']) :: [(['三'], ['1', '0']), (['三'], ['1', '1'])]))) =
        some (⟨14, 10⟩, ⟨15, 0⟩) := by decide
    rw [this] at hst
    exact (Option.some_injective _ hst).symm
  have het' : et = (⟨16, 20⟩, ⟨17, 10⟩) := by
    have : get_period_time (listMax (matchPeriods
        ((['三'], ['9']) :: [(['三'], ['1', '0']), (['三'], ['1', '1'])]))) =
        some (⟨16, 20⟩, ⟨17, 10⟩) := by decide
    rw [this] at het
    exact (Option.some_injective _ het).symm
  subst hst' het'
  exact hp

/-- C7: `parse_schedule` is a total function (it is defined for every
string, matching the source's never-raising contract), each comma group
contributes at most one session, and a malformed group — no regex
match, an unresolvable first weekday token, or a boundary period the
period table does not resolve (exactly the numbers outside 1..14) —
contributes no session at all. -/
theorem parse_schedule_total_degradation :
    (∀ s : String, (parse_schedule s).length ≤ (splitComma s.data).length) ∧
    (∀ g : List Char, findAll g = [] → parse_single_schedule g = []) ∧
    (∀ (g w0 d0 : List Char) (rest : List (List Char × List Char)),
      findAll g = (w0, d0) :: rest →
      assocLookup (String.mk w0) WEEKDAY_MAP = none →
      parse_single_schedule g = []) ∧
    (∀ (g w0 d0 : List Char) (rest : List (List Char × List Char)),
      findAll g = (w0, d0) :: rest →
      (listMin (matchPeriods ((w0, d0) :: rest)) < 1 ∨
        14 < listMin (matchPeriods ((w0, d0) :: rest)) ∨
        listMax (matchPeriods ((w0, d0) :: rest)) < 1 ∨
        14 < listMax (matchPeriods ((w0, d0) :: rest))) →
      parse_single_schedule g = []) := by
  refine ⟨?_, ?_, ?_, ?_⟩
  · intro s
    unfold parse_schedule
    dsimp only
    have hperm := List.perm_insertionSort sessLe
      (((splitComma s.data).map stripWs).map parse_single_schedule).flatten
    rw [hperm.length_eq]
    have hb := flatten_length_le (fun g => parse_single_schedule (stripWs g))
      (fun g => parse_single_schedule_length (stripWs g)) (splitComma s.data)
    calc ((((splitComma s.data).map stripWs).map parse_single_schedule).flatten).length
        = (((splitComma s.data).map fun g => parse_single_schedule (stripWs g)).flatten).length := by
          rw [List.map_map]; rfl
      _ ≤ (splitComma s.data).length := hb
  · intro g hf
    unfold parse_single_schedule
    rw [hf]
  · intro g w0 d0 rest hf hw
    unfold parse_single_schedule
    rw [hf]
    simp only [hw]
  · intro g w0 d0 rest hf hout
    unfold parse_single_schedule
    rw [hf]
    rcases hw : assocLookup (String.mk w0) WEEKDAY_MAP with _ | wd
    · simp only [hw]
    · simp only [hw]
      rw [show List.map (fun (m : List Char × List Char) => digitsToNat m.2) ((w0, d0) :: rest) =
        matchPeriods ((w0, d0) :: rest) from rfl]
      rcases hout with h | h | h | h
      · rw [get_period_time_none_of_out _ (Or.inl h)]
      · rw [get_period_time_none_of_out _ (Or.inr h)]
      · rw [get_period_time_none_of_out _ (Or.inl h)]
        rcases hq : get_period_time (listMin (matchPeriods ((w0, d0) :: rest))) with _ | pr <;> rfl
      · rw [get_period_time_none_of_out _ (Or.inr h)]
        rcases hq : get_period_time (listMin (matchPeriods ((w0, d0) :: rest))) with _ | pr <;> rfl

/-- Closed instances of `parse_schedule_total_degradation`: a two-group
string stays within the group bound, and three malformed groups (no
match, unresolvable weekday, period out of 1..14) yield no session. -/
theorem parse_schedule_total_degradation_witness :
    (parse_schedule "二2,五4").length ≤ (splitComma ("二2,五4").data).length ∧
    parse_single_schedule ['#', '!'] = [] ∧
    parse_single_schedule ['x', 'q', '3'] = [] ∧
    parse_single_schedule ['三', '1', '5'] = [] := by
  refine ⟨parse_schedule_total_degradation.1 "二2,五4", ?_, ?_, ?_⟩
  · exact parse_schedule_total_degradation.2.1 ['#', '!'] (by decide)
  · exact parse_schedule_total_degradation.2.2.1 ['x', 'q', '3'] ['x', 'q'] ['3'] []
      (by decide) (by decide)
  · exact parse_schedule_total_degradation.2.2.2 ['三', '1', '5'] ['三'] ['1', '5'] []
      (by decide) (by decide)

theorem dtLe_refl (a : PyDateTime) : dtLe a a := by unfold dtLe; omega

theorem dtLe_trans {a b c : PyDateTime} (h1 : dtLe a b) (h2 : dtLe b c) : dtLe a c := by
  unfold dtLe at *; omega

theorem dtLe_addDays_one (a : PyDateTime) : dtLe a (addDays a 1) := by
  unfold dtLe addDays
  dsimp only
  omega

theorem dayOccurrences_spec (sessions : List ClassSession) (cur : PyDateTime)
    (excl : List PyDateTime) :
    ∀ occ ∈ dayOccurrences sessions cur excl,
      occ.date = cur ∧ ∃ s ∈ sessions, pyWeekday cur = s.weekday ∧ occ.weekday = s.weekday := by
  intro occ hocc
  unfold dayOccurrences at hocc
  obtain ⟨s, hs, hfs⟩ := List.mem_filterMap.mp hocc
  by_cases hwd : pyWeekday cur = s.weekday
  · by_cases hex : cur ∈ excl
    · simp [hwd, hex] at hfs
    · simp [hwd, hex] at hfs
      exact ⟨by rw [← hfs], s, hs, hwd, by rw [← hfs]⟩
  · simp [hwd] at hfs

theorem classDatesLoop_spec (sessions : List ClassSession) (endDt : PyDateTime)
    (excl : List PyDateTime) :
    ∀ (fuel : Nat) (cur : PyDateTime),
      ∀ occ ∈ classDatesLoop fuel cur endDt sessions excl,
        dtLe cur occ.date ∧ dtLe occ.date endDt ∧
          ∃ s ∈ sessions, pyWeekday occ.date = s.weekday ∧ occ.weekday = s.weekday := by
  intro fuel
  induction fuel with
  | zero => intro cur occ hocc; simp [classDatesLoop] at hocc
  | succ fuel ih =>
    intro cur occ hocc
    unfold classDatesLoop at hocc
    by_cases hg : dtLe cur endDt
    · rw [if_pos hg] at hocc
      rcases List.mem_append.mp hocc with hday | hrec
      · obtain ⟨hdate, hs⟩ := dayOccurrences_spec sessions cur excl occ hday
        exact ⟨hdate ▸ dtLe_refl cur, hdate ▸ hg, hdate ▸ hs⟩
      · obtain ⟨h1, h2, h3⟩ := ih (addDays cur 1) occ hrec
        exact ⟨dtLe_trans (dtLe_addDays_one cur) h1, h2, h3⟩
    · rw [if_neg hg] at hocc
      simp at hocc

/-- C4: for a registered semester, every occurrence returned by
`get_class_dates` is dated inside the semester window, and its date's
weekday equals the weekday of one of the input sessions (whatever the
exclusion list is). -/
theorem get_class_dates_in_window (sessions : List ClassSession)
    (year sem : Nat) (excl : List PyDateTime) (S : Semester)
    (hS : get_semester_info year sem = some S) :
    ∀ occ ∈ get_class_dates sessions year sem excl,
      dtLe S.start_date occ.date ∧ dtLe occ.date S.end_date ∧
        ∃ s ∈ sessions, pyWeekday occ.date = s.weekday ∧ occ.weekday = s.weekday := by
  intro occ hocc
  unfold get_class_dates at hocc
  rw [hS] at hocc
  exact classDatesLoop_spec sessions S.end_date excl _ S.start_date occ hocc

/-- Closed instance of `get_class_dates_in_window`: the first expanded
Wednesday of semester (114, 1) lies inside 2025-09-01..2026-01-31 and is
a Wednesday (Scenario D). -/
theorem get_class_dates_in_window_witness :
    dtLe (mkDateTime 2025 9 1) (mkDateTime 2025 9 3) ∧
    dtLe (mkDateTime 2025 9 3) (mkDateTime 2026 1 31) ∧
    ∃ s ∈ parse_schedule "三9", pyWeekday (mkDateTime 2025 9 3) = s.weekday ∧
      (2 : Nat) = s.weekday := by
  have h := get_class_dates_in_window (parse_schedule "三9") 114 1 []
    ⟨114, 1, mkDateTime 2025 9 1, mkDateTime 2026 1 31⟩ (by decide)
    ⟨mkDateTime 2025 9 3, 2, ⟨14, 10⟩, ⟨15, 0⟩, 9, 9⟩ (by decide)
  exact h

theorem dayOccurrences_filter (sessions : List ClassSession) (cur : PyDateTime)
    (excl : List PyDateTime) :
    dayOccurrences sessions cur excl =
      (dayOccurrences sessions cur []).filter (fun o => decide (o.date ∉ excl)) := by
  by_cases hex : cur ∈ excl
  · have hl : dayOccurrences sessions cur excl = [] := by
      unfold dayOccurrences
      induction sessions with
      | nil => rfl
      | cons s ss ih => simp [List.filterMap_cons, hex, ih]
    rw [hl]
    symm
    rw [List.filter_eq_nil_iff]
    intro o ho
    have := (dayOccurrences_spec sessions cur [] o ho).1
    simp [this, hex]
  · have hl : dayOccurrences sessions cur excl = dayOccurrences sessions cur [] := by
      unfold dayOccurrences
      induction sessions with
      | nil => rfl
      | cons s ss ih => simp [List.filterMap_cons, hex, ih]
    rw [hl]
    symm
    rw [List.filter_eq_self]
    intro o ho
    have := (dayOccurrences_spec sessions cur [] o ho).1
    simp [this, hex]

theorem classDatesLoop_filter (sessions : List ClassSession) (endDt : PyDateTime)
    (excl : List PyDateTime) :
    ∀ (fuel : Nat) (cur : PyDateTime),
      classDatesLoop fuel cur endDt sessions excl =
        (classDatesLoop fuel cur endDt sessions []).filter
          (fun o => decide (o.date ∉ excl)) := by
  intro fuel
  induction fuel with
  | zero => intro cur; rfl
  | succ fuel ih =>
    intro cur
    unfold classDatesLoop
    by_cases hg : dtLe cur endDt
    · rw [if_pos hg, if_pos hg, List.filter_append, dayOccurrences_filter, ih]
    · rw [if_neg hg, if_neg hg]
      rfl

theorem classDatesLoop_tod (sessions : List ClassSession) (endDt : PyDateTime)
    (excl : List PyDateTime) :
    ∀ (fuel : Nat) (cur : PyDateTime),
      ∀ occ ∈ classDatesLoop fuel cur endDt sessions excl, occ.date.tod = cur.tod := by
  intro fuel
  induction fuel with
  | zero => intro cur occ hocc; simp [classDatesLoop] at hocc
  | succ fuel ih =>
    intro cur occ hocc
    unfold classDatesLoop at hocc
    by_cases hg : dtLe cur endDt
    · rw [if_pos hg] at hocc
      rcases List.mem_append.mp hocc with hday | hrec
      · rw [(dayOccurrences_spec sessions cur excl occ hday).1]
      · rw [ih (addDays cur 1) occ hrec]
        rfl
    · rw [if_neg hg] at hocc
      simp at hocc

/-- C10: exclusion in `get_class_dates` is exact datetime membership —
the returned list is the unexcluded list filtered by
`date ∉ exclude_dates`, every iterated day value keeps the semester
start date's time of day, and an exclusion list whose entries all differ
from that time of day excludes nothing. -/
theorem get_class_dates_exclusion_exact (sessions : List ClassSession)
    (year sem : Nat) (excl : List PyDateTime) (S : Semester)
    (hS : get_semester_info year sem = some S) :
    get_class_dates sessions year sem excl =
      (get_class_dates sessions year sem []).filter (fun o => decide (o.date ∉ excl)) ∧
    (∀ occ ∈ get_class_dates sessions year sem [], occ.date.tod = S.start_date.tod) ∧
    ((∀ e ∈ excl, e.tod ≠ S.start_date.tod) →
      get_class_dates sessions year sem excl = get_class_dates sessions year sem []) := by
  have hfil : get_class_dates sessions year sem excl =
      (get_class_dates sessions year sem []).filter (fun o => decide (o.date ∉ excl)) := by
    unfold get_class_dates
    rw [hS]
    exact classDatesLoop_filter sessions S.end_date excl _ S.start_date
  have htod : ∀ occ ∈ get_class_dates sessions year sem [], occ.date.tod = S.start_date.tod := by
    intro occ hocc
    unfold get_class_dates at hocc
    rw [hS] at hocc
    exact classDatesLoop_tod sessions S.end_date [] _ S.start_date occ hocc
  refine ⟨hfil, htod, ?_⟩
  intro hne
  rw [hfil, List.filter_eq_self]
  intro o ho
  simp only [decide_eq_true_eq]
  intro hmem
  exact hne o.date hmem (htod o ho)

/-- Closed instance of `get_class_dates_exclusion_exact`: over semester
(114, 1), a noon entry on 2025-09-03 (time of day differing from the
midnight-seeded start date) excludes nothing. -/
theorem get_class_dates_exclusion_exact_witness :
    get_class_dates (parse_schedule "三9") 114 1 [⟨toOrdinal 2025 9 3, 43200⟩] =
      get_class_dates (parse_schedule "三9") 114 1 [] := by
  have h := get_class_dates_exclusion_exact (parse_schedule "三9") 114 1
    [⟨toOrdinal 2025 9 3, 43200⟩] ⟨114, 1, mkDateTime 2025 9 1, mkDateTime 2026 1 31⟩
    (by decide)
  exact h.2.2 (by decide)

/-! ## Structure of consecutive date grouping -/

theorem groupByDateAux_flatten :
    ∀ (os : List Occurrence) (prev : Occurrence) (acc : List Occurrence),
      (groupByDateAux os prev acc).flatten = acc.reverse ++ os := by
  intro os
  induction os with
  | nil => intro prev acc; simp [groupByDateAux]
  | cons o os ih =>
    intro prev acc
    by_cases h : o.date = prev.date
    · rw [groupByDateAux, if_pos h, ih]
      simp
    · rw [groupByDateAux, if_neg h]
      simp [ih]

theorem groupByDate_flatten (l : List Occurrence) : (groupByDate l).flatten = l := by
  cases l with
  | nil => rfl
  | cons o os => rw [groupByDate, groupByDateAux_flatten]; rfl

theorem mem_of_mem_groupByDate {l : List Occurrence} {grp : List Occurrence}
    (hg : grp ∈ groupByDate l) {a : Occurrence} (ha : a ∈ grp) : a ∈ l := by
  rw [← groupByDate_flatten l]
  exact List.mem_flatten.mpr ⟨grp, hg, ha⟩

theorem groupByDateAux_first :
    ∀ (os : List Occurrence) (prev : Occurrence) (acc : List Occurrence),
      ∃ t gs, groupByDateAux os prev acc = (acc.reverse ++ t) :: gs := by
  intro os
  induction os with
  | nil => intro prev acc; exact ⟨[], [], by simp [groupByDateAux]⟩
  | cons o os ih =>
    intro prev acc
    by_cases h : o.date = prev.date
    · obtain ⟨t, gs, ht⟩ := ih o (o :: acc)
      rw [groupByDateAux, if_pos h, ht]
      exact ⟨o :: t, gs, by simp⟩
    · rw [groupByDateAux, if_neg h]
      exact ⟨[], groupByDateAux os o [o], by simp⟩

theorem groupByDateAux_same_date :
    ∀ (os : List Occurrence) (prev : Occurrence) (acc : List Occurrence),
      (∀ a ∈ acc, a.date = prev.date) →
      ∀ grp ∈ groupByDateAux os prev acc, ∀ a ∈ grp, ∀ b ∈ grp, a.date = b.date := by
  intro os
  induction os with
  | nil =>
    intro prev acc hacc grp hgrp a ha b hb
    simp [groupByDateAux] at hgrp
    subst hgrp
    rw [List.mem_reverse] at ha hb
    rw [hacc a ha, hacc b hb]
  | cons o os ih =>
    intro prev acc hacc grp hgrp a ha b hb
    by_cases h : o.date = prev.date
    · rw [groupByDateAux, if_pos h] at hgrp
      refine ih o (o :: acc) ?_ grp hgrp a ha b hb
      intro x hx
      rcases List.mem_cons.mp hx with hx | hx
      · rw [hx]
      · rw [hacc x hx, h]
    · rw [groupByDateAux, if_neg h] at hgrp
      rcases List.mem_cons.mp hgrp with hgrp | hgrp
      · subst hgrp
        rw [List.mem_reverse] at ha hb
        rw [hacc a ha, hacc b hb]
      · exact ih o [o] (by simp) grp hgrp a ha b hb

theorem occLe_refl (a : Occurrence) : occLe a a := by unfold occLe; omega

theorem occLe_date_le {a b : Occurrence} (h : occLe a b) :
    a.date.ordinal < b.date.ordinal ∨
      (a.date.ordinal = b.date.ordinal ∧ a.date.tod ≤ b.date.tod) := by
  unfold occLe at h; omega

theorem groupByDateAux_head_min :
    ∀ (os : List Occurrence) (prev : Occurrence) (acc : List Occurrence),
      (∀ a ∈ acc, a.date = prev.date) →
      List.Pairwise occLe (acc.reverse ++ os) →
      ∀ grp ∈ groupByDateAux os prev acc, ∀ g0 tl, grp = g0 :: tl →
        ∀ o ∈ acc.reverse ++ os, o.date = g0.date → occLe g0 o := by
  intro os
  induction os with
  | nil =>
    intro prev acc hacc hpair grp hgrp g0 tl hcons o ho hdate
    simp only [groupByDateAux, List.mem_singleton] at hgrp
    subst hgrp
    rw [hcons] at hpair ho
    simp only [List.append_nil] at hpair ho
    rcases List.mem_cons.mp ho with rfl | ho
    · exact occLe_refl _
    · exact (List.pairwise_cons.mp hpair).1 o ho
  | cons o1 os ih =>
    intro prev acc hacc hpair grp hgrp g0 tl hcons o ho hdate
    by_cases h : o1.date = prev.date
    · rw [groupByDateAux, if_pos h] at hgrp
      have hacc' : ∀ a ∈ o1 :: acc, a.date = o1.date := by
        intro x hx
        rcases List.mem_cons.mp hx with hx | hx
        · rw [hx]
        · rw [hacc x hx, h]
      have hl : (o1 :: acc).reverse ++ os = acc.reverse ++ o1 :: os := by simp
      exact ih o1 (o1 :: acc) hacc' (by rw [hl]; exact hpair) grp hgrp g0 tl hcons o
        (by rw [hl]; exact ho) hdate
    · rw [groupByDateAux, if_neg h] at hgrp
      rcases List.mem_cons.mp hgrp with hgrp | hgrp
      · have hrev : acc.reverse = g0 :: tl := by rw [← hgrp, hcons]
        rcases List.mem_append.mp ho with hoa | hob
        · rw [hrev] at hoa
          rcases List.mem_cons.mp hoa with rfl | htl
          · exact occLe_refl _
          · have hp1 : List.Pairwise occLe acc.reverse := (List.pairwise_append.mp hpair).1
            rw [hrev] at hp1
            exact (List.pairwise_cons.mp hp1).1 o htl
        · have hcross := (List.pairwise_append.mp hpair).2.2
          have hg0 : g0 ∈ acc.reverse := by rw [hrev]; exact List.mem_cons_self _ _
          exact hcross g0 hg0 o hob
      · have hpair2 : List.Pairwise occLe (o1 :: os) := (List.pairwise_append.mp hpair).2.1
        have ihres := ih o1 [o1] (by simp) (by simpa using hpair2) grp hgrp g0 tl hcons
        rcases List.mem_append.mp ho with hoa | hob
        · exfalso
          have hod : o.date = prev.date := hacc o (List.mem_reverse.mp hoa)
          have hg0mem : g0 ∈ o1 :: os := by
            have hg1 : g0 ∈ grp := hcons ▸ List.mem_cons_self g0 tl
            have hg2 : g0 ∈ (groupByDateAux os o1 [o1]).flatten :=
              List.mem_flatten.mpr ⟨grp, hgrp, hg1⟩
            rw [groupByDateAux_flatten] at hg2
            simpa using hg2
          have hcross := (List.pairwise_append.mp hpair).2.2
          have h1 : occLe o o1 := hcross o hoa o1 (List.mem_cons_self _ _)
          have h2 : occLe o1 g0 := by
            rcases List.mem_cons.mp hg0mem with hg | hg
            · exact hg ▸ occLe_refl o1
            · exact (List.pairwise_cons.mp hpair2).1 g0 hg
          have d1 := occLe_date_le h1
          have d2 := occLe_date_le h2
          have hcomp : o.date.ordinal = g0.date.ordinal ∧ o.date.tod = g0.date.tod := by
            rw [hdate]; exact ⟨rfl, rfl⟩
          apply h
          have ho1o : o1.date = o.date := by
            ext
            · omega
            · omega
          rw [ho1o, hod]
        · exact ihres o (by simpa using hob) hdate

theorem groupByDate_same_date {l : List Occurrence} {grp : List Occurrence}
    (hg : grp ∈ groupByDate l) : ∀ a ∈ grp, ∀ b ∈ grp, a.date = b.date := by
  cases l with
  | nil => simp [groupByDate] at hg
  | cons x xs => exact groupByDateAux_same_date xs x [x] (by simp) grp hg

theorem groupByDate_head_min {l : List Occurrence} (hpair : List.Pairwise occLe l)
    {grp : List Occurrence} (hg : grp ∈ groupByDate l) {g0 : Occurrence}
    {tl : List Occurrence} (hcons : grp = g0 :: tl) :
    ∀ o ∈ l, o.date = g0.date → occLe g0 o := by
  cases l with
  | nil => simp [groupByDate] at hg
  | cons x xs =>
    intro o ho hd
    exact groupByDateAux_head_min xs x [x] (by simp) (by simpa using hpair) grp hg g0 tl
      hcons o (by simpa using ho) hd

theorem filterMap_cap (anchor : PyDateTime) (gs : List (List Occurrence)) :
    (gs.filterMap fun grp => (buildBlock anchor grp).bind fun b =>
        if 18 < b.week.getD 0 then none else some b) =
      (gs.filterMap (buildBlock anchor)).filter (fun b => decide (b.week.getD 0 ≤ 18)) := by
  induction gs with
  | nil => rfl
  | cons g gs ih =>
    rw [List.filterMap_cons, List.filterMap_cons]
    cases hb : buildBlock anchor g with
    | none => simp [ih]
    | some b =>
      by_cases hw : (18 : Int) < b.week.getD 0
      · have hw' : ¬ (b.week.getD 0 ≤ 18) := by omega
        simp [hw, hw', ih]
      · have hw' : b.week.getD 0 ≤ 18 := by omega
        simp [hw, hw', ih]

/-- C2: after sorting by (date, start time) and grouping by date, the
week index of every emitted block is
`fdiv (block.date - anchor).days 7 + 1` where the anchor is the date of
the first occurrence in sorted order — equivalently of the first
emitted block, which always carries week 1 — not the semester's
registered start date. -/
theorem mergeAndIndex_week_anchor (occs : List Occurrence) (first : Occurrence)
    (rest : List Occurrence) (hs : List.insertionSort occLe occs = first :: rest) :
    (∀ blk ∈ mergeAndIndex occs,
      blk.week = some (((blk.date.ordinal : Int) - (first.date.ordinal : Int)).fdiv 7 + 1)) ∧
    (∀ b0 bs, mergeAndIndex occs = b0 :: bs → b0.date = first.date ∧ b0.week = some 1) := by
  constructor
  · intro blk hblk
    unfold mergeAndIndex at hblk
    rw [hs] at hblk
    obtain ⟨grp, hgrp, hf⟩ := List.mem_filterMap.mp hblk
    cases grp with
    | nil => simp [buildBlock] at hf
    | cons g0 gtl =>
      rw [buildBlock] at hf
      rw [Option.some_bind] at hf
      split at hf
      · exact absurd hf (by simp)
      · obtain rfl := (Option.some_injective _ hf)
        rfl
  · intro b0 bs hmi
    unfold mergeAndIndex at hmi
    rw [hs] at hmi
    dsimp only at hmi
    obtain ⟨t, gs, hgd⟩ := groupByDateAux_first rest first [first]
    simp only [List.reverse_cons, List.reverse_nil, List.nil_append,
      List.singleton_append] at hgd
    rw [show groupByDate (first :: rest) = groupByDateAux rest first [first] from rfl,
      hgd, List.filterMap_cons] at hmi
    rw [buildBlock, Option.some_bind] at hmi
    have hweek : ((first.date.ordinal : Int) - (first.date.ordinal : Int)).fdiv 7 + 1 = 1 := by
      norm_num [Int.sub_self, Int.zero_fdiv]
    rw [hweek] at hmi
    rw [if_neg (by simp)] at hmi
    dsimp only at hmi
    injection hmi with h1 h2
    exact ⟨by rw [← h1], by rw [← h1]⟩

/-- Occurrences of the Wednesday course "三9" over semester (114, 1). -/
def wedOccs : List Occurrence := get_class_dates (parse_schedule "三9") 114 1 []

/-- Closed instance of `mergeAndIndex_week_anchor`: the Wednesday-only
course of semester (114, 1) is anchored to its first Wednesday
occurrence 2025-09-03, not to the registered start 2025-09-01
(Scenario E). -/
theorem mergeAndIndex_week_anchor_witness :
    (∀ blk ∈ mergeAndIndex wedOccs,
      blk.week = some (((blk.date.ordinal : Int) -
        ((mkDateTime 2025 9 3).ordinal : Int)).fdiv 7 + 1)) ∧
    (∀ b0 bs, mergeAndIndex wedOccs = b0 :: bs →
      b0.date = mkDateTime 2025 9 3 ∧ b0.week = some 1) ∧
    mkDateTime 2025 9 3 ≠ mkDateTime 2025 9 1 := by
  have h := mergeAndIndex_week_anchor wedOccs
    ⟨mkDateTime 2025 9 3, 2, ⟨14, 10⟩, ⟨15, 0⟩, 9, 9⟩
    (List.insertionSort occLe wedOccs).tail (by decide)
  exact ⟨h.1, h.2, by decide⟩

/-- C3: every block emitted by the smart-mode merge carries a week index
with `1 <= week_index <= 18`, and the capped output is exactly the
uncapped merge filtered by `week_index <= 18` — dropped blocks do not
cause the survivors to be renumbered, so gaps may remain. -/
theorem mergeAndIndex_week_bounds (occs : List Occurrence) :
    (∀ blk ∈ mergeAndIndex occs, ∃ w : Int, blk.week = some w ∧ 1 ≤ w ∧ w ≤ 18) ∧
    mergeAndIndex occs =
      (mergeBlocksNoCap occs).filter (fun b => decide (b.week.getD 0 ≤ 18)) := by
  constructor
  · intro blk hblk
    unfold mergeAndIndex at hblk
    rcases hs : List.insertionSort occLe occs with _ | ⟨first, rest⟩
    · rw [hs] at hblk
      simp at hblk
    · rw [hs] at hblk
      obtain ⟨grp, hgrp, hf⟩ := List.mem_filterMap.mp hblk
      cases grp with
      | nil => simp [buildBlock] at hf
      | cons g0 gtl =>
        rw [buildBlock, Option.some_bind] at hf
        split at hf
        · exact absurd hf (by simp)
        · rename_i hcap
          obtain rfl := Option.some_injective _ hf
          refine ⟨((g0.date.ordinal : Int) - first.date.ordinal).fdiv 7 + 1, rfl, ?_, ?_⟩
          · have hsorted : List.Pairwise occLe (first :: rest) := by
              have h0 := List.sorted_insertionSort occLe occs
              rw [hs] at h0
              exact h0
            have hg0 : g0 ∈ first :: rest :=
              mem_of_mem_groupByDate hgrp (List.mem_cons_self g0 gtl)
            have hord : first.date.ordinal ≤ g0.date.ordinal := by
              rcases List.mem_cons.mp hg0 with hg | hg
              · rw [hg]
              · have := occLe_date_le ((List.pairwise_cons.mp hsorted).1 g0 hg)
                omega
            have hd : (0 : Int) ≤ (g0.date.ordinal : Int) - first.date.ordinal := by omega
            have := Int.fdiv_nonneg hd (by norm_num : (0 : Int) ≤ 7)
            omega
          · simp at hcap
            omega
  · unfold mergeAndIndex mergeBlocksNoCap
    rcases hs : List.insertionSort occLe occs with _ | ⟨first, rest⟩
    · rfl
    · dsimp only
      exact filterMap_cap first.date (groupByDate (first :: rest))

/-- Closed instance of `mergeAndIndex_week_bounds` at the semester
(114, 1) Wednesday pipeline. -/
theorem mergeAndIndex_week_bounds_witness :
    (∃ w : Int,
      (⟨mkDateTime 2025 9 3, some ⟨14, 10⟩, some ⟨15, 0⟩, some 1⟩ : TeachingBlock).week =
        some w ∧ 1 ≤ w ∧ w ≤ 18) ∧
    mergeAndIndex wedOccs =
      (mergeBlocksNoCap wedOccs).filter (fun b => decide (b.week.getD 0 ≤ 18)) :=
  ⟨(mergeAndIndex_week_bounds wedOccs).1 _ (by decide),
    (mergeAndIndex_week_bounds wedOccs).2⟩

/-- Same-date occurrences with nested time spans (as produced by the
schedule "三1/三10,三2" on one Wednesday): periods 1-10 (06:10-16:00)
and period 2 (07:10-08:00). -/
def nestedOcc1 : Occurrence := ⟨mkDateTime 2025 9 3, 2, ⟨6, 10⟩, ⟨16, 0⟩, 1, 10⟩

/-- Second nested occurrence, with later start but earlier end. -/
def nestedOcc2 : Occurrence := ⟨mkDateTime 2025 9 3, 2, ⟨7, 10⟩, ⟨8, 0⟩, 2, 2⟩

/-- Counterexample to C6 as stated: merging two same-date occurrences
with nested spans yields one block whose `end_time` is 08:00 — the end
of the occurrence that sorts last by start time — while the latest
`end_time` among the occurrences sharing that date is 16:00. -/
theorem merge_end_time_not_latest_cex :
    (mergeAndIndex [nestedOcc1, nestedOcc2]).map TeachingBlock.end_time = [some ⟨8, 0⟩] ∧
    (∀ b ∈ mergeAndIndex [nestedOcc1, nestedOcc2], b.date = nestedOcc1.date) ∧
    nestedOcc1.end_time = ⟨16, 0⟩ ∧ nestedOcc2.end_time = ⟨8, 0⟩ ∧
    ((8 : Nat) < 16 ∨ (8 = 16 ∧ (0 : Nat) < 0)) := by decide

theorem occLe_getLast_bound :
    ∀ (l : List Occurrence), List.Pairwise occLe l →
      ∀ a ∈ l, ∀ g, l.getLast? = some g → occLe a g := by
  intro l
  induction l with
  | nil => intro _ a ha; simp at ha
  | cons x xs ih =>
    intro hp a ha g hg
    cases xs with
    | nil =>
      have hg' : x = g := by simpa using hg
      have ha' : a = x := by simpa using ha
      rw [ha', ← hg']
      exact occLe_refl x
    | cons y ys =>
      rw [List.getLast?_cons_cons] at hg
      rcases List.mem_cons.mp ha with rfl | ha
      · have hgmem : g ∈ y :: ys := by
          obtain ⟨hne, hgl⟩ := List.mem_getLast?_eq_getLast (Option.mem_def.mpr hg)
          rw [hgl]
          exact List.getLast_mem hne
        exact (List.pairwise_cons.mp hp).1 g hgmem
      · exact ih (List.pairwise_cons.mp hp).2 a ha g hg

theorem groupByDateAux_filter :
    ∀ (os : List Occurrence) (prev : Occurrence) (acc : List Occurrence),
      (∀ a ∈ acc, a.date = prev.date) →
      List.Pairwise occLe (acc.reverse ++ os) →
      ∀ grp ∈ groupByDateAux os prev acc, ∀ g0 tl, grp = g0 :: tl →
        grp = (acc.reverse ++ os).filter (fun o => decide (o.date = g0.date)) := by
  intro os
  induction os with
  | nil =>
    intro prev acc hacc hpair grp hgrp g0 tl hcons
    simp only [groupByDateAux, List.mem_singleton] at hgrp
    subst hgrp
    have hg0 : g0.date = prev.date := by
      apply hacc
      rw [← List.mem_reverse, hcons]
      exact List.mem_cons_self _ _
    rw [List.append_nil]
    symm
    rw [List.filter_eq_self]
    intro o ho
    simp only [decide_eq_true_eq]
    rw [hacc o (List.mem_reverse.mp ho), hg0]
  | cons o1 os ih =>
    intro prev acc hacc hpair grp hgrp g0 tl hcons
    by_cases h : o1.date = prev.date
    · rw [groupByDateAux, if_pos h] at hgrp
      have hacc' : ∀ a ∈ o1 :: acc, a.date = o1.date := by
        intro x hx
        rcases List.mem_cons.mp hx with hx | hx
        · rw [hx]
        · rw [hacc x hx, h]
      have hl : (o1 :: acc).reverse ++ os = acc.reverse ++ o1 :: os := by simp
      have hres := ih o1 (o1 :: acc) hacc' (by rw [hl]; exact hpair) grp hgrp g0 tl hcons
      rw [hl] at hres
      exact hres
    · rw [groupByDateAux, if_neg h] at hgrp
      rcases List.mem_cons.mp hgrp with hgrp | hgrp
      · have hrev : acc.reverse = g0 :: tl := by rw [← hgrp, hcons]
        have hg0d : g0.date = prev.date := by
          apply hacc
          rw [← List.mem_reverse, hrev]
          exact List.mem_cons_self _ _
        have hfacc : acc.reverse.filter (fun o => decide (o.date = g0.date)) = acc.reverse := by
          rw [List.filter_eq_self]
          intro o ho
          simp only [decide_eq_true_eq]
          rw [hacc o (List.mem_reverse.mp ho), hg0d]
        have hpair2 : List.Pairwise occLe (o1 :: os) := (List.pairwise_append.mp hpair).2.1
        have hfrest : (o1 :: os).filter (fun o => decide (o.date = g0.date)) = [] := by
          rw [List.filter_eq_nil_iff]
          intro o ho
          simp only [decide_eq_true_eq]
          intro hod
          rcases List.mem_cons.mp ho with rfl | hos
          · exact h (by rw [hod, hg0d])
          · have hg0mem : g0 ∈ acc.reverse := by
              rw [hrev]
              exact List.mem_cons_self _ _
            have hcross := (List.pairwise_append.mp hpair).2.2
            have h1 : occLe g0 o1 := hcross g0 hg0mem o1 (List.mem_cons_self _ _)
            have h2 : occLe o1 o := (List.pairwise_cons.mp hpair2).1 o hos
            have d1 := occLe_date_le h1
            have d2 := occLe_date_le h2
            have hcomp : o.date.ordinal = g0.date.ordinal ∧ o.date.tod = g0.date.tod :=
              ⟨congrArg PyDateTime.ordinal hod, congrArg PyDateTime.tod hod⟩
            apply h
            have ho1g : o1.date = g0.date := by
              ext
              · omega
              · omega
            rw [ho1g, hg0d]
        rw [List.filter_append, hfacc, hfrest, List.append_nil]
        exact hgrp
      · have hpair2 : List.Pairwise occLe (o1 :: os) := (List.pairwise_append.mp hpair).2.1
        have ihres : grp = (o1 :: os).filter (fun o => decide (o.date = g0.date)) := by
          simpa using ih o1 [o1] (by simp) (by simpa using hpair2) grp hgrp g0 tl hcons
        have hg0mem : g0 ∈ o1 :: os := by
          have hg1 : g0 ∈ grp := hcons ▸ List.mem_cons_self g0 tl
          have hg2 : g0 ∈ (groupByDateAux os o1 [o1]).flatten :=
            List.mem_flatten.mpr ⟨grp, hgrp, hg1⟩
          rw [groupByDateAux_flatten] at hg2
          simpa using hg2
        have hfacc : acc.reverse.filter (fun o => decide (o.date = g0.date)) = [] := by
          rw [List.filter_eq_nil_iff]
          intro o ho
          simp only [decide_eq_true_eq]
          intro hod
          have hodp : o.date = prev.date := hacc o (List.mem_reverse.mp ho)
          have hcross := (List.pairwise_append.mp hpair).2.2
          have h1 : occLe o o1 := hcross o ho o1 (List.mem_cons_self _ _)
          have h2 : occLe o1 g0 := by
            rcases List.mem_cons.mp hg0mem with hg | hg
            · exact hg ▸ occLe_refl o1
            · exact (List.pairwise_cons.mp hpair2).1 g0 hg
          have d1 := occLe_date_le h1
          have d2 := occLe_date_le h2
          have hcomp : o.date.ordinal = g0.date.ordinal ∧ o.date.tod = g0.date.tod :=
            ⟨congrArg PyDateTime.ordinal hod, congrArg PyDateTime.tod hod⟩
          apply h
          have ho1o : o1.date = o.date := by
            ext
            · omega
            · omega
          rw [ho1o, hodp]
        rw [List.filter_append, hfacc, List.nil_append]
        exact ihres

theorem groupByDate_eq_filter {l : List Occurrence} (hpair : List.Pairwise occLe l)
    {grp : List Occurrence} (hg : grp ∈ groupByDate l) {g0 : Occurrence}
    {tl : List Occurrence} (hcons : grp = g0 :: tl) :
    grp = l.filter (fun o => decide (o.date = g0.date)) := by
  cases l with
  | nil => simp [groupByDate] at hg
  | cons x xs =>
    simpa using groupByDateAux_filter xs x [x] (by simp) (by simpa using hpair) grp hg
      g0 tl hcons

/-- C6 amended: every merged block's `start_time` is the earliest start
among the occurrences sharing the block's date, and its `end_time` is
the `end_time` of the occurrence that sorts last by (date, start time)
among the occurrences sharing that date — the last element of the
same-date run of the sorted occurrence list, which every same-date
occurrence precedes in the sort order — and that occurrence's end need
not be the latest end. -/
theorem merge_block_time_span (occs : List Occurrence) :
    ∀ blk ∈ mergeAndIndex occs,
      ∃ st : Time, blk.start_time = some st ∧
        (∃ o ∈ occs, o.date = blk.date ∧ o.start_time = st) ∧
        (∀ o ∈ occs, o.date = blk.date →
          st.hour < o.start_time.hour ∨
            (st.hour = o.start_time.hour ∧ st.minute ≤ o.start_time.minute)) ∧
        (∃ oe : Occurrence,
          ((List.insertionSort occLe occs).filter
              (fun o => decide (o.date = blk.date))).getLast? = some oe ∧
          oe ∈ occs ∧ oe.date = blk.date ∧ blk.end_time = some oe.end_time ∧
          (∀ o ∈ occs, o.date = blk.date → occLe o oe)) := by
  intro blk hblk
  unfold mergeAndIndex at hblk
  rcases hs : List.insertionSort occLe occs with _ | ⟨first, rest⟩
  · rw [hs] at hblk
    simp at hblk
  · rw [hs] at hblk
    obtain ⟨grp, hgrp, hf⟩ := List.mem_filterMap.mp hblk
    have hperm : (first :: rest).Perm occs := by
      have h0 := List.perm_insertionSort occLe occs
      rw [hs] at h0
      exact h0
    have hsorted : List.Pairwise occLe (first :: rest) := by
      have h0 := List.sorted_insertionSort occLe occs
      rw [hs] at h0
      exact h0
    cases grp with
    | nil => simp [buildBlock] at hf
    | cons g0 gtl =>
      rw [buildBlock, Option.some_bind] at hf
      split at hf
      · exact absurd hf (by simp)
      · obtain rfl := Option.some_injective _ hf
        refine ⟨g0.start_time, rfl, ?_, ?_, ?_⟩
        · exact ⟨g0,
            hperm.subset (mem_of_mem_groupByDate hgrp (List.mem_cons_self g0 gtl)),
            rfl, rfl⟩
        · intro o ho hdate
          have ho' : o ∈ first :: rest := hperm.symm.subset ho
          have hmin := groupByDate_head_min hsorted hgrp rfl o ho' hdate
          have hcomp : o.date.ordinal = g0.date.ordinal ∧ o.date.tod = g0.date.tod :=
            ⟨congrArg PyDateTime.ordinal hdate, congrArg PyDateTime.tod hdate⟩
          unfold occLe at hmin
          omega
        · have hfeq : g0 :: gtl =
              (first :: rest).filter (fun o => decide (o.date = g0.date)) :=
            groupByDate_eq_filter hsorted hgrp rfl
          have hpgrp : List.Pairwise occLe (g0 :: gtl) := by
            rw [hfeq]
            exact List.Pairwise.sublist (List.filter_sublist (first :: rest)) hsorted
          have hlast_mem : (g0 :: gtl).getLast (by simp) ∈ g0 :: gtl :=
            List.getLast_mem (by simp)
          refine ⟨(g0 :: gtl).getLast (by simp), ?_, ?_, ?_, rfl, ?_⟩
          · show ((first :: rest).filter (fun o => decide (o.date = g0.date))).getLast? =
              some ((g0 :: gtl).getLast (by simp))
            rw [← hfeq]
            exact List.getLast?_eq_getLast _ (by simp)
          · exact hperm.subset (mem_of_mem_groupByDate hgrp hlast_mem)
          · exact groupByDate_same_date hgrp _ hlast_mem g0 (List.mem_cons_self g0 gtl)
          · intro o ho hdate
            have ho' : o ∈ first :: rest := hperm.symm.subset ho
            have homem : o ∈ g0 :: gtl := by
              rw [hfeq]
              exact List.mem_filter.mpr ⟨ho', by simpa using hdate⟩
            exact occLe_getLast_bound (g0 :: gtl) hpgrp o homem _
              (List.getLast?_eq_getLast _ (by simp))

/-- Closed instance of `merge_block_time_span` on the nested-span pair:
the block starts at the earliest start 06:10 and ends with the end time
(08:00) of the occurrence sorting last by (date, start time), which is
not the latest end. -/
theorem merge_block_time_span_witness :
    ∃ st : Time,
      (⟨mkDateTime 2025 9 3, some ⟨6, 10⟩, some ⟨8, 0⟩, some 1⟩ : TeachingBlock).start_time =
        some st ∧
      (∃ o ∈ [nestedOcc1, nestedOcc2],
        o.date = (⟨mkDateTime 2025 9 3, some ⟨6, 10⟩, some ⟨8, 0⟩, some 1⟩ : TeachingBlock).date ∧
        o.start_time = st) ∧
      (∀ o ∈ [nestedOcc1, nestedOcc2],
        o.date = (⟨mkDateTime 2025 9 3, some ⟨6, 10⟩, some ⟨8, 0⟩, some 1⟩ : TeachingBlock).date →
        st.hour < o.start_time.hour ∨
          (st.hour = o.start_time.hour ∧ st.minute ≤ o.start_time.minute)) ∧
      (∃ oe : Occurrence,
        ((List.insertionSort occLe [nestedOcc1, nestedOcc2]).filter
            (fun o => decide (o.date =
              (⟨mkDateTime 2025 9 3, some ⟨6, 10⟩, some ⟨8, 0⟩, some 1⟩ : TeachingBlock).date))).getLast? =
          some oe ∧
        oe ∈ [nestedOcc1, nestedOcc2] ∧
        oe.date = (⟨mkDateTime 2025 9 3, some ⟨6, 10⟩, some ⟨8, 0⟩, some 1⟩ : TeachingBlock).date ∧
        (⟨mkDateTime 2025 9 3, some ⟨6, 10⟩, some ⟨8, 0⟩, some 1⟩ : TeachingBlock).end_time =
          some oe.end_time ∧
        (∀ o ∈ [nestedOcc1, nestedOcc2],
          o.date = (⟨mkDateTime 2025 9 3, some ⟨6, 10⟩, some ⟨8, 0⟩, some 1⟩ : TeachingBlock).date →
          occLe o oe)) :=
  merge_block_time_span [nestedOcc1, nestedOcc2] _ (by decide)

/-- A 29-day global window (2025-09-01 .. 2025-09-30). -/
def shortStart : PyDateTime := mkDateTime 2025 9 1

/-- End of the 29-day global window. -/
def shortEnd : PyDateTime := mkDateTime 2025 9 30

/-- Counterexample to C8 as stated: over a 29-day window,
`floor(total_weeks / 18)` is 0, so the claimed date for block 2 is the
global start 2025-09-01; the code spaces blocks by
`max(1, ...)` weeks and actually dates block 2 at 2025-09-08. -/
theorem legacy_spacing_cex :
    ((legacySessions shortStart shortEnd).map TeachingBlock.date)[1]? =
      some (mkDateTime 2025 9 8) ∧
    (pyTimedeltaDays shortEnd shortStart).fdiv 126 = 0 ∧
    addDaysI shortStart (7 * ((2 : Int) - 1) *
      ((pyTimedeltaDays shortEnd shortStart).fdiv 126)) = mkDateTime 2025 9 1 ∧
    mkDateTime 2025 9 8 ≠ mkDateTime 2025 9 1 := by decide

/-- C8 amended: the legacy fallback emits exactly 18 blocks; block `i`
is dated `global_start` plus `(i-1) * max 1 (trunc(total_weeks / 18))`
weeks (the claim omitted the `max` with 1), clamped at `global_end`,
and carries no time of day and no week key. -/
theorem legacySessions_shape (gS gE : PyDateTime) :
    (legacySessions gS gE).length = 18 ∧
    (∀ i ∈ List.range' 1 18,
      (legacySessions gS gE)[i - 1]? = some
        ⟨(if dtLt gE (addDaysI gS (7 * ((i : Int) - 1) *
              max 1 ((pyTimedeltaDays gE gS).tdiv 126)))
          then gE
          else addDaysI gS (7 * ((i : Int) - 1) *
            max 1 ((pyTimedeltaDays gE gS).tdiv 126))),
          none, none, none⟩) ∧
    (∀ blk ∈ legacySessions gS gE, ¬ dtLt gE blk.date) := by
  refine ⟨by unfold legacySessions; rw [List.length_map]; rfl, ?_, ?_⟩
  · intro i hi
    fin_cases hi <;> rfl
  · intro blk hblk
    unfold legacySessions at hblk
    obtain ⟨i, hi, hf⟩ := List.mem_map.mp hblk
    subst hf
    dsimp only
    split
    · unfold dtLt
      omega
    · assumption

/-- Closed instance of `legacySessions_shape` on the 29-day window. -/
theorem legacySessions_shape_witness :
    (legacySessions shortStart shortEnd).length = 18 ∧
    (legacySessions shortStart shortEnd)[2 - 1]? = some
      ⟨(if dtLt shortEnd (addDaysI shortStart (7 * ((2 : Int) - 1) *
            max 1 ((pyTimedeltaDays shortEnd shortStart).tdiv 126)))
        then shortEnd
        else addDaysI shortStart (7 * ((2 : Int) - 1) *
          max 1 ((pyTimedeltaDays shortEnd shortStart).tdiv 126))),
        none, none, none⟩ ∧
    ¬ dtLt shortEnd (⟨mkDateTime 2025 9 8, none, none, none⟩ : TeachingBlock).date := by
  have h := legacySessions_shape shortStart shortEnd
  exact ⟨h.1, h.2.1 2 (by decide), h.2.2 ⟨mkDateTime 2025 9 8, none, none, none⟩ (by decide)⟩

/-- C9: the row interpreter is a total function (matching the source's
never-raising contract) and returns no record when a mandatory field is
missing or useless: an absent (or falsy) schedule notation, a notation
parsing to zero sessions, or an absent name, year or semester. -/
theorem parse_course_row_missing (row : Row) :
    (orGet row ["上课时间", "Schedule", "schedule"] = none → parse_course_row row = none) ∧
    (∀ sch, orGet row ["上课时间", "Schedule", "schedule"] = some sch →
      parse_schedule sch = [] → parse_course_row row = none) ∧
    (orGet row ["课程名称", "Name", "name"] = none → parse_course_row row = none) ∧
    (orGet row ["学年", "Year", "year"] = none → parse_course_row row = none) ∧
    (orGet row ["学期", "Semester", "semester"] = none → parse_course_row row = none) := by
  refine ⟨?_, ?_, ?_, ?_, ?_⟩
  · intro h
    unfold parse_course_row
    dsimp only
    rw [h]
    all_goals
      rcases h1 : orGet row ["学年", "Year", "year"] with _ | ys <;>
        rcases h2 : orGet row ["学期", "Semester", "semester"] with _ | ss <;>
        rcases h3 : orGet row ["课程名称", "Name", "name"] with _ | nm <;> rfl
  · intro sch hsch hparse
    unfold parse_course_row
    dsimp only
    rw [hsch]
    rcases h1 : orGet row ["学年", "Year", "year"] with _ | ys <;>
      rcases h2 : orGet row ["学期", "Semester", "semester"] with _ | ss <;>
      rcases h3 : orGet row ["课程名称", "Name", "name"] with _ | nm <;>
      try rfl
    rcases h4 : pyInt ys with _ | y <;> rcases h5 : pyInt ss with _ | s <;>
      simp [h4, h5, hparse]
  · intro h
    unfold parse_course_row
    dsimp only
    rw [h]
    all_goals
      rcases h1 : orGet row ["学年", "Year", "year"] with _ | ys <;>
        rcases h2 : orGet row ["学期", "Semester", "semester"] with _ | ss <;>
        rcases h4 : orGet row ["上课时间", "Schedule", "schedule"] with _ | sch <;> rfl
  · intro h
    unfold parse_course_row
    dsimp only
    rw [h]
  · intro h
    unfold parse_course_row
    dsimp only
    rw [h]
    all_goals
      rcases h1 : orGet row ["学年", "Year", "year"] with _ | ys <;>
        rcases h3 : orGet row ["课程名称", "Name", "name"] with _ | nm <;>
        rcases h4 : orGet row ["上课时间", "Schedule", "schedule"] with _ | sch <;> rfl

/-- Closed instances of `parse_course_row_missing`: a row missing its
schedule field and a row whose notation parses to zero sessions both
yield no record (Scenario F). -/
theorem parse_course_row_missing_witness :
    parse_course_row [("课程名称", "X"), ("学年", "114"), ("学期", "1")] = none ∧
    parse_course_row [("课程名称", "X"), ("学年", "114"), ("学期", "1"),
      ("上课时间", "junk")] = none := by
  constructor
  · exact (parse_course_row_missing
      [("课程名称", "X"), ("学年", "114"), ("学期", "1")]).1 (by decide)
  · exact (parse_course_row_missing
      [("课程名称", "X"), ("学年", "114"), ("学期", "1"), ("上课时间", "junk")]).2.1
      "junk" (by decide) (by decide)
